import Mathlib

/-!
Verification of the texera-rudf marshalling layer.

This file shallowly embeds the data-marshalling core of the texera-rudf
plugin: the value converter and row reconstruction of
`texera_r/r_utils.py`, the row marshalling of
`texera_r/RTupleExecutor.py` (`process_tuple` and the R large-binary
APIs injected by `_setup_r_large_binary_apis`), and the large-object
column detection of `texera_r/RTableExecutor.py`
(`_convert_largebinary_to_string_in_dataframe`).

Modelling conventions:
* rpy2 / R guest values are an inductive type; R vectors carry an explicit
  first element (the code always reads index 0) plus the remaining elements.
* The numeric payload of an R float vector is abstracted to `Int`: no
  floating-point arithmetic happens on the verified paths, the payload is
  only moved around.
* External collaborators (the pyarrow/rpy2 columnar bridge, `pickle`, the
  engine's `core.models.Tuple`, the `aws.s3` object-storage client and R's
  random sampler) are not part of this repository; where a definition
  models one of them it is marked `Modelled from the spec:` in its doc
  comment and follows the spec's description of the call contract.
-/

/-- Opaque stand-in for an arbitrary Python object, for example the payload
obtained by pickle-deserializing a binary field value.  Only identity of
such objects matters to the marshalling layer. -/
structure PklObj where
  oid : Nat
  deriving DecidableEq

/-- Guest-runtime (R, seen through rpy2) values that reach the conversion
layer of `r_utils.convert_r_to_py`.  A `POSIXct` date-time vector is an R
float vector with the `posix` flag set, mirroring the Python subclass
relation `POSIXct <: FloatVector`.  `rLB` is a Python `largebinary`
reference object visible on the R side; `rPyObj` is any other opaque
Python object embedded in R; `rNull` is R `NULL`. -/
inductive RValue where
  | rLB (uri : String)
  | boolVec (h : Bool) (t : List Bool)
  | intVec (h : Int) (t : List Int)
  | floatVec (posix : Bool) (h : Int) (t : List Int)
  | strVec (h : String) (t : List String)
  | rNull
  | rPyObj (p : PklObj)
  deriving DecidableEq

/-- Native (Python) values held in a row.  `pyBytes p` is a header-prefixed
pickled byte string whose deserialized payload is `p`; `pyLB` is a
`largebinary` reference object wrapping its URI; `pyRObj v` is a guest
value that was passed through the converter unchanged. -/
inductive PyValue where
  | pyBool (b : Bool)
  | pyInt (i : Int)
  | pyFloat (x : Int)
  | pyStr (s : String)
  | pyDatetime (x : Int)
  | pyLB (uri : String)
  | pyBytes (p : PklObj)
  | pyRObj (v : RValue)
  deriving DecidableEq

/-- Embedding of `r_utils.convert_r_to_py`: dispatch on the runtime class of
the guest value.  A `largebinary` object is returned as-is; a bool/int/char
vector yields its first element as the native scalar; a float vector yields
its first element, as a timestamp when the vector is `POSIXct`-tagged
(`next(value.iter_localized_datetime())`) and as a float otherwise; every
other value is returned unchanged. -/
def convert_r_to_py : RValue → PyValue
  | .rLB u => .pyLB u
  | .boolVec b _ => .pyBool b
  | .intVec i _ => .pyInt i
  | .floatVec true x _ => .pyDatetime x
  | .floatVec false x _ => .pyFloat x
  | .strVec s _ => .pyStr s
  | v => .pyRObj v

/-- A value produced by calling the guest generator once: either an R symbol
(`rinterface.SexpSymbol`) or an R list vector, with or without a `names`
attribute.  Per R semantics an empty list and a symbol have `NULL` names. -/
inductive RGenValue where
  | sym (s : String)
  | unnamedList (vals : List RValue)
  | namedList (entries : List (String × RValue))
  deriving DecidableEq

/-- The reserved end-of-stream sentinel symbol checked by
`extract_tuple_from_r`. -/
def sentinelName : String := ".__exhausted__."

/-- The `names` attribute of a guest value (`output_r_tuple.names`):
`none` models R `NULL`.  A symbol, an unnamed list and an empty list all
have `NULL` names. -/
def namesOf : RGenValue → Option (List String)
  | .sym _ => none
  | .unnamedList _ => none
  | .namedList entries => if entries.isEmpty then none else some (entries.map Prod.fst)

/-- The entries of a named guest record (empty for the other shapes). -/
def recordEntries : RGenValue → List (String × RValue)
  | .namedList entries => entries
  | _ => []

/-- Embedding of `output_r_tuple.rx2(key)`: R `[[` extraction by name on a
list returns the first entry with that name, and `NULL` when no entry
matches. -/
def rx2 (entries : List (String × RValue)) (key : String) : RValue :=
  (entries.lookup key).getD .rNull

/-- Python `dict` assignment `d[k] = v`: overwrite in place when the key is
present, append otherwise. -/
def dictInsert (d : List (String × RValue)) (k : String) (v : RValue) :
    List (String × RValue) :=
  if d.any (fun e => e.1 == k) then d.map (fun e => if e.1 == k then (k, v) else e)
  else d ++ [(k, v)]

/-- Python dict comprehension over a key list: repeated keys are collapsed,
keeping the first occurrence position and the last written value. -/
def buildDict (keys : List String) (f : String → RValue) : List (String × RValue) :=
  keys.foldl (fun d k => dictInsert d k (f k)) []

/-- Whether a string begins with the large-object URI scheme prefix
(`value.startswith("s3://")` in Python, `grepl("^s3://", uri)` in R),
computed on the character sequence. -/
def startsWithS3 (s : String) : Bool := List.isPrefixOf ( "s3://").toList s.toList

/-- Rebinding step of `extract_tuple_from_r` for non-source operators: a
converted value is replaced by a `largebinary` reference object exactly when
its field is a declared large-binary field and the value is a string
beginning with the scheme prefix. -/
def rebindNonSource (large_binary_fields : List String) (k : String) :
    PyValue → PyValue
  | .pyStr s =>
    if decide (k ∈ large_binary_fields) && startsWithS3 s then .pyLB s else .pyStr s
  | v => v

/-- Rebinding step of `extract_tuple_from_r` for source operators: every
string value beginning with the scheme prefix is replaced by a
`largebinary` reference object, regardless of field name. -/
def autoRebind : PyValue → PyValue
  | .pyStr s => if startsWithS3 s then .pyLB s else .pyStr s
  | v => v

/-- The end-of-stream test of `extract_tuple_from_r`: the value is the
reserved sentinel symbol, or its `names` attribute is R `NULL`. -/
def isEndOfStream (out : RGenValue) : Bool :=
  (match out with | .sym s => s == sentinelName | _ => false) || (namesOf out).isNone

/-- Embedding of `r_utils.extract_tuple_from_r` applied to one guest value
(the Python function first calls the generator; here the produced value is
the argument).  Returns `none` for end-of-stream, otherwise the ordered
field-name/value mapping of the reconstructed row (`Tuple(output_python_dict)`). -/
def extract_tuple_from_r (out : RGenValue) (source_operator : Bool)
    (input_fields : List String) (large_binary_fields : List String) :
    Option (List (String × PyValue)) :=
  if isEndOfStream out then none
  else
    let entries := recordEntries out
    let names := entries.map Prod.fst
    let keys :=
      if source_operator then names
      else input_fields ++ names.filter (fun n => decide (n ∉ input_fields))
    let rawDict := buildDict keys (fun k => rx2 entries k)
    let converted := rawDict.map (fun kv => (kv.1, convert_r_to_py kv.2))
    some
      (if source_operator then
        converted.map (fun kv => (kv.1, autoRebind kv.2))
      else
        converted.map (fun kv => (kv.1, rebindNonSource large_binary_fields kv.1 kv.2)))

/-- The semantic category of a schema field, as `process_tuple` sees it
through the arrow schema: a plain arrow type, the arrow binary type, or a
string field tagged `LARGE_BINARY` by the reserved metadata key. -/
inductive FType where
  | tInt
  | tFloat
  | tBool
  | tStr
  | tTimestamp
  | tBinary
  | tLargeBinary
  deriving DecidableEq

/-- Whether a field carries the `LARGE_BINARY` metadata tag
(`field.metadata.get(TEXERA_TYPE_METADATA_KEY) == LARGE_BINARY_METADATA_VALUE`). -/
def isLB : FType → Bool
  | .tLargeBinary => true
  | _ => false

/-- Whether a field's arrow type is `pa.binary()`. -/
def isBin : FType → Bool
  | .tBinary => true
  | _ => false

/-- Modelled from the spec: the foreign-call bridge's generic conversion of a
native scalar placed on the R side (the pyarrow single-row struct read back
through `as.list(...$as_vector())` for plain fields, and rpy2 `ListVector`
construction for the hand-carried fields).  Each native scalar becomes the
corresponding length-one R vector; timestamps become `POSIXct`; a
`largebinary` object stays a wrapped Python object; other Python objects
stay opaque. -/
def pyToREmbed : PyValue → RValue
  | .pyBool b => .boolVec b []
  | .pyInt i => .intVec i []
  | .pyFloat x => .floatVec false x []
  | .pyStr s => .strVec s []
  | .pyDatetime x => .floatVec true x []
  | .pyLB u => .rLB u
  | .pyBytes p => .rPyObj p
  | .pyRObj v => v

/-- Embedding of the binary-field branch of `RTupleExecutor.process_tuple`:
a bytes value is pickle-deserialized after skipping its 10-byte header
(pickle is external; deserializing `pyBytes p` yields the payload object
`p`), a datetime becomes a `POSIXct` vector via
`POSIXct.sexp_from_datetime`, anything else passes through the bridge. -/
def binEntryToR : PyValue → RValue
  | .pyBytes p => .rPyObj p
  | .pyDatetime x => .floatVec true x []
  | v => pyToREmbed v

/-- Embedding of the large-binary branch of `RTupleExecutor.process_tuple`:
a `largebinary` object contributes its URI string (`v.uri`), a string
passes as-is, anything else passes through the bridge. -/
def lbEntryToR : PyValue → RValue
  | .pyLB u => pyToREmbed (.pyStr u)
  | v => pyToREmbed v

/-- Names of the fields tagged `LARGE_BINARY`, in schema order. -/
def lbFieldNames (schema : List (String × FType)) : List String :=
  (schema.filter (fun f => isLB f.2)).map Prod.fst

/-- Names of the untagged binary-typed fields, in schema order
(the `elif field.type == pa.binary()` branch). -/
def binFieldNames (schema : List (String × FType)) : List String :=
  (schema.filter (fun f => !(isLB f.2) && isBin f.2)).map Prod.fst

/-- Names of the remaining (plain) fields, in schema order. -/
def plainFieldNames (schema : List (String × FType)) : List String :=
  (schema.filter (fun f => !(isLB f.2) && !(isBin f.2))).map Prod.fst

/-- Value of a row field by name (`tuple_.as_dict()` lookup through
`get_partial_tuple`); the default is never reached for a well-formed row. -/
def rowGet (row : List (String × PyValue)) (k : String) : PyValue :=
  (row.lookup k).getD (.pyRObj .rNull)

/-- Embedding of the guest record built by `RTupleExecutor.process_tuple`
before the user function is called: the plain fields (single-row arrow
struct turned into an R list), then the binary fields, then the
large-binary fields, spliced by the R helper
`c(non_binary_list, binary_list)`.  An empty R list has `NULL` names, which
`namesOf` accounts for. -/
def toGuestRecord (schema : List (String × FType)) (row : List (String × PyValue)) :
    RGenValue :=
  .namedList
    ((plainFieldNames schema).map (fun k => (k, pyToREmbed (rowGet row k)))
      ++ (binFieldNames schema).map (fun k => (k, binEntryToR (rowGet row k)))
      ++ (lbFieldNames schema).map (fun k => (k, lbEntryToR (rowGet row k))))

/-- The schema of a list of (name, type, value) field triples. -/
def schemaOf (fields : List (String × FType × PyValue)) : List (String × FType) :=
  fields.map (fun t => (t.1, t.2.1))

/-- The row (ordered name-to-value mapping) of a list of field triples. -/
def rowOf (fields : List (String × FType × PyValue)) : List (String × PyValue) :=
  fields.map (fun t => (t.1, t.2.2))

/-- Whether a value is well-typed for its field category: plain fields hold
the matching native scalar, binary fields hold header-prefixed pickled
bytes or a datetime, and a large-binary field holds a bound `largebinary`
reference, whose URI always carries the scheme prefix (`mint` and `bind`
guarantee it). -/
def wellTypedVal : FType → PyValue → Bool
  | .tInt, .pyInt _ => true
  | .tFloat, .pyFloat _ => true
  | .tBool, .pyBool _ => true
  | .tStr, .pyStr _ => true
  | .tTimestamp, .pyDatetime _ => true
  | .tBinary, .pyBytes _ => true
  | .tBinary, .pyDatetime _ => true
  | .tLargeBinary, .pyLB u => startsWithS3 u
  | _, _ => false

/-- Modelled from the spec: when the engine consumes a returned row, a raw
deserialized binary payload is re-serialized by `core.models.Tuple`
(external) into the same header-prefixed pickled bytes value it came from;
every other value is kept as-is. -/
def engineNormalizeVal : PyValue → PyValue
  | .pyRObj (.rPyObj p) => .pyBytes p
  | v => v

/-- `engineNormalizeVal` applied to every field of a row. -/
def engineNormalizeRow (r : List (String × PyValue)) : List (String × PyValue) :=
  r.map (fun kv => (kv.1, engineNormalizeVal kv.2))

/-- A cell of a pandas data-frame column, as
`RTableExecutor._convert_largebinary_to_string_in_dataframe` inspects it:
a `largebinary` object, a string, a null (`NaN`/`None`), or any other
value. -/
inductive Cell where
  | clb (uri : String)
  | cstr (s : String)
  | cnull
  | cother (p : PklObj)
  deriving DecidableEq

/-- `isinstance(v, str) and v.startswith("s3://")` on a cell. -/
def cellIsS3Str : Cell → Bool
  | .cstr s => startsWithS3 s
  | _ => false

/-- `df[col].dropna()`: the non-null cells of a column. -/
def nonNullCells (col : List Cell) : List Cell :=
  col.filter (fun c => !(c == Cell.cnull))

/-- Whether a column's first cell (`df[col].iloc[0]`) is a `largebinary`
object. -/
def headIsLB : List Cell → Bool
  | Cell.clb _ :: _ => true
  | _ => false

/-- Embedding of the column-classification logic of
`RTableExecutor._convert_largebinary_to_string_in_dataframe` for one
column: a column whose first cell is a `largebinary` object is classified;
otherwise, when the first cell is a string with the scheme prefix, the
column is classified when at least one and at least 80 percent of its
non-null cells are scheme-prefixed strings.  The Python float comparison
`s3_uri_count / len(non_null_values) >= 0.8` is modelled exactly as
`4 * len <= 5 * count`; the two agree at every realizable column size. -/
def detect_large_binary_column (col : List Cell) : Bool :=
  match col with
  | [] => false
  | first :: _ =>
    match first with
    | .clb _ => true
    | .cstr s =>
      if startsWithS3 s then
        let nn := nonNullCells col
        if 0 < nn.length then
          let cnt := (nn.filter cellIsS3Str).length
          decide (0 < cnt ∧ 4 * nn.length ≤ 5 * cnt)
        else false
      else false
    | _ => false

/-- The full per-column behavior of
`RTableExecutor._convert_largebinary_to_string_in_dataframe`: when the
first cell is a `largebinary` object every `largebinary` cell is replaced
by its URI string; the second component is the classification. -/
def convert_largebinary_column (col : List Cell) : List Cell × Bool :=
  (match col with
    | Cell.clb _ :: _ =>
      col.map (fun c => match c with | .clb u => .cstr u | c => c)
    | _ => col,
   detect_large_binary_column col)

/-- The sixteen characters `c(0:9, letters[1:6])` that `generate_uuid`
samples from. -/
def hexDigits : List Char := ( "0123456789abcdef").toList

/-- The character chosen by one draw of the sampler. -/
def hexChar (d : Fin 16) : Char := hexDigits.getD d.val 'z'

/-- Embedding of the R helper `generate_uuid`: `sample()` is external
randomness, so the 32 draws are an explicit input; the drawn characters
are concatenated (`paste(..., collapse = "")`). -/
def generate_uuid (draws : List (Fin 16)) : String :=
  String.mk (draws.map hexChar)

/-- The default bucket of the R large-binary API. -/
def DEFAULT_BUCKET : String := "texera-large-binaries"

/-- Embedding of the fresh-mint branch of the R `largebinary()` function:
the millisecond timestamp (`as.numeric(Sys.time()) * 1000`, external
clock) and the sampler draws are explicit inputs; the timestamp is
rendered in plain decimal (`sprintf` with a plain fixed-point format, so
never scientific form), and the URI is assembled by `paste0`.  The
idempotent ensure-bucket step only talks to storage and does not affect
the returned URI. -/
def mint (timestampMs : Nat) (draws : List (Fin 16)) : String :=
  "s3://" ++ DEFAULT_BUCKET ++ "/objects/" ++ toString timestampMs ++ "/"
    ++ generate_uuid draws

/-- Split a character list at slashes (structural model of taking URI path
components). -/
def splitSlashAux : List Char → List Char → List (List Char)
  | [], acc => [acc.reverse]
  | c :: rest, acc =>
    if c = '/' then acc.reverse :: splitSlashAux rest []
    else splitSlashAux rest (c :: acc)

/-- The final path segment of a URI (the part after the last slash). -/
def randomSegment (uri : String) : String :=
  String.mk ((splitSlashAux uri.toList []).getLastD [])

/-- A non-NULL argument passed to the R `largebinary(uri)` function: an R
character vector, or any non-character value. -/
inductive RBindArg where
  | charVec (xs : List String)
  | nonChar (p : PklObj)
  deriving DecidableEq

/-- The invalid-reference failure (`stop(...)` conditions raised by the
bound-URI branch of `largebinary`). -/
inductive LBError where
  | invalidReference (msg : String)
  deriving DecidableEq

/-- Embedding of the bound-URI branch of the R `largebinary(uri)` function
(`uri` non-NULL): a non-character or non-length-one argument fails, a
single string without the scheme prefix fails, and a single
scheme-prefixed string is returned exactly as given. -/
def bindLB : RBindArg → Except LBError String
  | .nonChar _ => .error (.invalidReference "uri must be a single character string")
  | .charVec xs =>
    match xs with
    | [u] =>
      if startsWithS3 u then .ok u
      else .error (.invalidReference ( "largebinary URI must start with s3://, got: " ++ u))
    | _ => .error (.invalidReference "uri must be a single character string")

/-- Whether a bind argument is a single scheme-prefixed string. -/
def isSingleS3 : RBindArg → Bool
  | .charVec [u] => startsWithS3 u
  | _ => false

/-- State of an R `LargeBinaryInputStream`: the staged temp file holding the
downloaded object (its bytes and whether it still exists on disk), the
read cursor, and the `closed` flag. -/
structure RInputStream where
  closed : Bool
  tempFileExists : Bool
  content : List Nat
  pos : Nat
  deriving DecidableEq

/-- State of an R `LargeBinaryOutputStream`: the staged temp file contents
and whether the file still exists, plus the `closed` flag. -/
structure ROutputStream where
  closed : Bool
  tempFileExists : Bool
  staged : List Nat
  deriving DecidableEq

/-- Failures surfaced by the stream operations: I/O on a closed stream
(`stop("I/O operation on closed stream")`) and a failed upload on close
(`stop("Failed to upload to S3: ...")`). -/
inductive StreamError where
  | streamClosed
  | uploadFailed
  deriving DecidableEq

/-- Embedding of the input stream's `read_func`: fails on a closed stream,
otherwise returns up to `n` bytes from the staged file (all remaining
bytes for a negative `n`, `readBin`'s behavior as the spec describes the
read contract). -/
def inputRead (n : Int) (s : RInputStream) :
    RInputStream × Except StreamError (List Nat) :=
  if s.closed then (s, .error .streamClosed)
  else
    let avail := s.content.drop s.pos
    let taken := if n < 0 then avail else avail.take n.toNat
    ({ s with pos := s.pos + taken.length }, .ok taken)

/-- Embedding of the input stream's `readline_func`: fails on a closed
stream, otherwise consumes one line from the staged file. -/
def inputReadline (s : RInputStream) :
    RInputStream × Except StreamError (List Nat) :=
  if s.closed then (s, .error .streamClosed)
  else
    let avail := s.content.drop s.pos
    let line := avail.takeWhile (fun b => !(b == 10))
    ({ s with pos := s.pos + line.length + 1 }, .ok line)

/-- Embedding of the input stream's `close_func`: on first call marks the
stream closed, closes the connection and unlinks the staged temp file;
later calls are no-ops. -/
def inputClose (s : RInputStream) : RInputStream :=
  if s.closed then s else { s with closed := true, tempFileExists := false }

/-- Embedding of the output stream's `write_func`: fails on a closed stream,
otherwise appends the data to the staged file and returns the byte count
written. -/
def outputWrite (data : List Nat) (s : ROutputStream) :
    ROutputStream × Except StreamError Nat :=
  if s.closed then (s, .error .streamClosed)
  else ({ s with staged := s.staged ++ data }, .ok data.length)

/-- Embedding of the output stream's `close_func`: on first call it marks
the stream closed, flushes and closes the connection, then uploads the
staged file with `put_object` (external transfer; its outcome is the
`uploadOk` input) and unlinks the staged temp file on both outcomes,
re-raising the upload failure after the cleanup.  Later calls are no-ops.
Returns the new state, the surfaced result, and the object stored remotely
when the upload succeeded. -/
def outputClose (uploadOk : Bool) (s : ROutputStream) :
    ROutputStream × Except StreamError Unit × Option (List Nat) :=
  if s.closed then (s, .ok (), none)
  else
    let s1 : ROutputStream := { s with closed := true, tempFileExists := false }
    if uploadOk then (s1, .ok (), some s.staged)
    else (s1, .error .uploadFailed, none)

/-- The 80-percent column of claim C6 whose first value is not itself a
scheme-prefixed string: ten non-null strings, exactly eight of them
scheme-prefixed. -/
def colEighty : List Cell :=
  Cell.cstr "plain-a" :: Cell.cstr "plain-b"
    :: List.replicate 8 (Cell.cstr "s3://bkt/k")

/-- A 100-cell string column whose first value is scheme-prefixed and in
which exactly 79 percent of the non-null values are scheme-prefixed. -/
def colSeventyNine : List Cell :=
  Cell.cstr "s3://bkt/k"
    :: (List.replicate 78 (Cell.cstr "s3://bkt/k")
        ++ List.replicate 21 (Cell.cstr "plain"))

/-! ### Association-list and dictionary lemmas -/

theorem lookup_of_mem_nodup {α : Type} :
    ∀ {l : List (String × α)} {k : String} {v : α},
      (l.map Prod.fst).Nodup → (k, v) ∈ l → l.lookup k = some v := by
  intro l
  induction l with
  | nil => intro k v _ hm; cases hm
  | cons e rest ih =>
    intro k v hnd hm
    obtain ⟨e1, e2⟩ := e
    have hnd2 : (¬ e1 ∈ rest.map Prod.fst) ∧ (rest.map Prod.fst).Nodup := by
      simpa using hnd
    rcases List.mem_cons.mp hm with he | hrest
    · cases he
      simp [List.lookup_cons]
    · have hk : ¬ k = e1 := by
        intro hkk
        apply hnd2.1
        subst hkk
        exact List.mem_map.mpr ⟨(k, v), hrest, rfl⟩
      simp only [List.lookup_cons, beq_eq_false_iff_ne, ne_eq]
      rw [show (k == e1) = false by simpa using hk]
      exact ih hnd2.2 hrest

theorem lookup_append_right {α : Type} {l₁ l₂ : List (String × α)} {k : String}
    (h : ¬ k ∈ l₁.map Prod.fst) : (l₁ ++ l₂).lookup k = l₂.lookup k := by
  induction l₁ with
  | nil => simp
  | cons e rest ih =>
    obtain ⟨e1, e2⟩ := e
    have h1 : ¬ k = e1 := fun hk => h (by simp [hk])
    have h2 : ¬ k ∈ rest.map Prod.fst := fun hk => h (by simp [hk])
    simp only [List.cons_append, List.lookup_cons]
    rw [show (k == e1) = false by simpa using h1]
    exact ih h2

theorem lookup_eq_none_of_not_mem {α : Type} {l : List (String × α)} {k : String}
    (h : ¬ k ∈ l.map Prod.fst) : l.lookup k = none := by
  have h2 := @lookup_append_right α l [] k h
  simpa using h2

theorem dictInsert_of_not_mem {d : List (String × RValue)} {k : String}
    {v : RValue} (h : ∀ e ∈ d, e.1 ≠ k) : dictInsert d k v = d ++ [(k, v)] := by
  unfold dictInsert
  have : d.any (fun e => e.1 == k) = false := by
    rw [List.any_eq_false]
    intro e he
    simpa using h e he
  simp [this]

theorem dictInsert_snd {d : List (String × RValue)} {k : String} {v : RValue}
    (f : String → RValue) (hv : v = f k) (hd : ∀ kv ∈ d, kv.2 = f kv.1) :
    ∀ kv ∈ dictInsert d k v, kv.2 = f kv.1 := by
  intro kv hkv
  unfold dictInsert at hkv
  by_cases hc : d.any (fun e => e.1 == k) = true
  · rw [if_pos hc] at hkv
    obtain ⟨e, he, heq⟩ := List.mem_map.mp hkv
    by_cases hek : (e.1 == k) = true
    · have heq2 : (k, v) = kv := by simpa [hek] using heq
      rw [← heq2]
      exact hv
    · have heq2 : e = kv := by simpa [hek] using heq
      rw [← heq2]
      exact hd e he
  · rw [if_neg hc] at hkv
    rcases List.mem_append.mp hkv with hkv2 | hkv2
    · exact hd kv hkv2
    · have heq2 : kv = (k, v) := List.mem_singleton.mp hkv2
      rw [heq2]
      exact hv

theorem mem_map_fst_dictInsert {d : List (String × RValue)} {k x : String}
    {v : RValue} (h : x ∈ d.map Prod.fst ∨ x = k) :
    x ∈ (dictInsert d k v).map Prod.fst := by
  unfold dictInsert
  by_cases hc : d.any (fun e => e.1 == k) = true
  · rw [if_pos hc]
    rcases h with h | hxk
    · obtain ⟨e, he, hx⟩ := List.mem_map.mp h
      by_cases hek : (e.1 == k) = true
      · have hxk : x = k := by
          rw [← hx]
          exact beq_iff_eq.mp hek
        exact List.mem_map.mpr
          ⟨(k, v), List.mem_map.mpr ⟨e, he, by simp [hek]⟩, hxk.symm⟩
      · exact List.mem_map.mpr ⟨e, List.mem_map.mpr ⟨e, he, by simp [hek]⟩, hx⟩
    · obtain ⟨e, he, hek⟩ := List.any_eq_true.mp hc
      exact List.mem_map.mpr
        ⟨(k, v), List.mem_map.mpr ⟨e, he, by simp [hek]⟩, hxk.symm⟩
  · rw [if_neg hc]
    rcases h with h | hxk
    · simp only [List.map_append, List.mem_append]
      exact Or.inl h
    · simp [hxk]

theorem buildDict_aux_eq (f : String → RValue) :
    ∀ (keys : List String) (acc : List (String × RValue)),
      (acc.map Prod.fst ++ keys).Nodup →
      keys.foldl (fun d k => dictInsert d k (f k)) acc
        = acc ++ keys.map (fun k => (k, f k)) := by
  intro keys
  induction keys with
  | nil => intro acc _; simp
  | cons k ks ih =>
    intro acc h
    have hdisj := (List.nodup_append.mp h).2.2
    have hk : ∀ e ∈ acc, e.1 ≠ k := by
      intro e he hek
      exact hdisj (List.mem_map.mpr ⟨e, he, hek⟩) (by simp)
    have hins : dictInsert acc k (f k) = acc ++ [(k, f k)] :=
      dictInsert_of_not_mem hk
    have hnd2 : ((acc ++ [(k, f k)]).map Prod.fst ++ ks).Nodup := by
      simp only [List.map_append, List.map_cons, List.map_nil, List.append_assoc,
        List.cons_append, List.nil_append]
      have : (acc.map Prod.fst ++ k :: ks) = acc.map Prod.fst ++ ([k] ++ ks) := by simp
      rw [this] at h
      simpa [List.append_assoc] using h
    calc (k :: ks).foldl (fun d k => dictInsert d k (f k)) acc
        = ks.foldl (fun d k => dictInsert d k (f k)) (acc ++ [(k, f k)]) := by
          rw [List.foldl_cons, hins]
      _ = (acc ++ [(k, f k)]) ++ ks.map (fun x => (x, f x)) := ih _ hnd2
      _ = acc ++ (k :: ks).map (fun x => (x, f x)) := by simp

theorem buildDict_eq_of_nodup {keys : List String} (f : String → RValue)
    (h : keys.Nodup) : buildDict keys f = keys.map (fun k => (k, f k)) := by
  have := buildDict_aux_eq f keys [] (by simpa using h)
  simpa [buildDict] using this

theorem buildDict_snd (f : String → RValue) (keys : List String) :
    ∀ kv ∈ buildDict keys f, kv.2 = f kv.1 := by
  suffices h : ∀ (keys : List String) (acc : List (String × RValue)),
      (∀ kv ∈ acc, kv.2 = f kv.1) →
      ∀ kv ∈ keys.foldl (fun d k => dictInsert d k (f k)) acc, kv.2 = f kv.1 by
    exact h keys [] (by intro kv hkv; cases hkv)
  intro keys
  induction keys with
  | nil => intro acc hacc; simpa using hacc
  | cons k ks ih =>
    intro acc hacc
    rw [List.foldl_cons]
    exact ih _ (dictInsert_snd f rfl hacc)

theorem mem_buildDict_of_mem (f : String → RValue) {keys : List String}
    {k : String} (h : k ∈ keys) : (k, f k) ∈ buildDict keys f := by
  have hmem : k ∈ (buildDict keys f).map Prod.fst := by
    suffices haux : ∀ (keys : List String) (acc : List (String × RValue)),
        (k ∈ acc.map Prod.fst ∨ k ∈ keys) →
        k ∈ (keys.foldl (fun d x => dictInsert d x (f x)) acc).map Prod.fst by
      exact haux keys [] (Or.inr h)
    intro keys
    induction keys with
    | nil => intro acc hacc; simpa using hacc
    | cons x xs ih =>
      intro acc hacc
      rw [List.foldl_cons]
      apply ih
      rcases hacc with hacc | hacc
      · exact Or.inl (mem_map_fst_dictInsert (Or.inl hacc))
      · rcases List.mem_cons.mp hacc with rfl | hacc
        · exact Or.inl (mem_map_fst_dictInsert (Or.inr rfl))
        · exact Or.inr hacc
  obtain ⟨kv, hkv, hfst⟩ := List.mem_map.mp hmem
  have hsnd := buildDict_snd f keys kv hkv
  have : kv = (k, f k) := by
    obtain ⟨k1, v1⟩ := kv
    simp only at hfst hsnd
    rw [hfst] at hsnd ⊢
    rw [hsnd]
  rw [← this]
  exact hkv

/-! ### Structure of `extract_tuple_from_r` on a named record -/

theorem isEndOfStream_namedList {entries : List (String × RValue)}
    (h : entries ≠ []) : isEndOfStream (.namedList entries) = false := by
  simp [isEndOfStream, namesOf, List.isEmpty_iff, h]

theorem extract_nonsource_eq (entries : List (String × RValue))
    (inF lbf : List String) (hne : entries ≠ [])
    (hnd : (inF ++ (entries.map Prod.fst).filter (fun n => decide (n ∉ inF))).Nodup) :
    extract_tuple_from_r (.namedList entries) false inF lbf
      = some ((inF ++ (entries.map Prod.fst).filter (fun n => decide (n ∉ inF))).map
          (fun k => (k, rebindNonSource lbf k (convert_r_to_py (rx2 entries k))))) := by
  have hend := isEndOfStream_namedList hne
  simp only [extract_tuple_from_r, hend, Bool.false_eq_true, if_false, recordEntries,
    Bool.if_false_left]
  rw [buildDict_eq_of_nodup _ hnd]
  simp [List.map_map, Function.comp_def]

theorem extract_mem_val_nonsource {entries : List (String × RValue)}
    {inF lbf : List String} {r : List (String × PyValue)} {k : String} {v : PyValue}
    (hsome : extract_tuple_from_r (.namedList entries) false inF lbf = some r)
    (hmem : (k, v) ∈ r) :
    v = rebindNonSource lbf k (convert_r_to_py (rx2 entries k)) := by
  by_cases hend : isEndOfStream (.namedList entries) = true
  · simp [extract_tuple_from_r, hend] at hsome
  · simp only [extract_tuple_from_r, hend, Bool.false_eq_true, if_false,
      recordEntries, Option.some.injEq] at hsome
    rw [← hsome] at hmem
    simp only [List.map_map, List.mem_map, Function.comp_def] at hmem
    obtain ⟨kv, hkv, heq⟩ := hmem
    have hsnd := buildDict_snd _ _ kv hkv
    have hk : kv.1 = k := congrArg Prod.fst heq
    have hv : rebindNonSource lbf kv.1 (convert_r_to_py kv.2) = v :=
      congrArg Prod.snd heq
    rw [← hv, hsnd, hk]

theorem extract_mem_val_source {entries : List (String × RValue)}
    {inF lbf : List String} {r : List (String × PyValue)} {k : String} {v : PyValue}
    (hsome : extract_tuple_from_r (.namedList entries) true inF lbf = some r)
    (hmem : (k, v) ∈ r) :
    v = autoRebind (convert_r_to_py (rx2 entries k)) := by
  by_cases hend : isEndOfStream (.namedList entries) = true
  · simp [extract_tuple_from_r, hend] at hsome
  · simp only [extract_tuple_from_r, hend, Bool.false_eq_true, if_false,
      eq_self_iff_true, if_true, recordEntries, Option.some.injEq] at hsome
    rw [← hsome] at hmem
    simp only [List.map_map, List.mem_map, Function.comp_def] at hmem
    obtain ⟨kv, hkv, heq⟩ := hmem
    have hsnd := buildDict_snd _ _ kv hkv
    have hk : kv.1 = k := congrArg Prod.fst heq
    have hv : autoRebind (convert_r_to_py kv.2) = v := congrArg Prod.snd heq
    rw [← hv, hsnd, hk]

theorem extract_mem_key_nonsource {entries : List (String × RValue)}
    {inF lbf : List String} {r : List (String × PyValue)} {k : String}
    (hsome : extract_tuple_from_r (.namedList entries) false inF lbf = some r)
    (hk : k ∈ inF) :
    (k, rebindNonSource lbf k (convert_r_to_py (rx2 entries k))) ∈ r := by
  by_cases hend : isEndOfStream (.namedList entries) = true
  · simp [extract_tuple_from_r, hend] at hsome
  · simp only [extract_tuple_from_r, hend, Bool.false_eq_true, if_false,
      recordEntries, Option.some.injEq] at hsome
    rw [← hsome]
    simp only [List.map_map, List.mem_map, Function.comp_def]
    refine ⟨(k, rx2 entries k), mem_buildDict_of_mem _ (List.mem_append.mpr (Or.inl hk)), rfl⟩

theorem extract_eq_none_iff_isEnd (out : RGenValue) (src : Bool)
    (inF lbf : List String) :
    extract_tuple_from_r out src inF lbf = none ↔ isEndOfStream out = true := by
  unfold extract_tuple_from_r
  by_cases h : isEndOfStream out = true <;> simp [h]

theorem isEnd_iff (out : RGenValue) :
    isEndOfStream out = true ↔ (out = .sym sentinelName ∨ namesOf out = none) := by
  cases out with
  | sym s => simp [isEndOfStream, namesOf]
  | unnamedList vals => simp [isEndOfStream, namesOf]
  | namedList es =>
    by_cases h : es.isEmpty = true <;> simp [isEndOfStream, namesOf, h]

/-- C2: `extract_tuple_from_r` signals end-of-stream (returns the `None`
marker) exactly when the guest value is the reserved sentinel symbol
`.__exhausted__.` or the value carries no field names (`names` is R
`NULL`); both conditions produce the identical `None` result for the
caller, in source and non-source mode alike. -/
theorem extract_end_of_stream_iff (out : RGenValue) (src : Bool)
    (inF lbf : List String) :
    extract_tuple_from_r out src inF lbf = none
      ↔ (out = .sym sentinelName ∨ namesOf out = none) :=
  (extract_eq_none_iff_isEnd out src inF lbf).trans (isEnd_iff out)

/-- C3: for a non-source call on a named guest record, the field order of
the reconstructed row is the input field order followed by exactly the
guest field names not present in the input field order, in the order the
guest record reports them. -/
theorem extract_field_order (entries : List (String × RValue))
    (inF lbf : List String) (hne : entries ≠ [])
    (hndIn : inF.Nodup) (hndRec : (entries.map Prod.fst).Nodup) :
    (extract_tuple_from_r (.namedList entries) false inF lbf).map
        (fun r => r.map Prod.fst)
      = some (inF ++ (entries.map Prod.fst).filter (fun n => decide (n ∉ inF))) := by
  have hdisj :
      inF.Disjoint ((entries.map Prod.fst).filter (fun n => decide (n ∉ inF))) := by
    intro a ha hafil
    have h2 := (List.mem_filter.mp hafil).2
    simp only [decide_eq_true_eq] at h2
    exact h2 ha
  have hnd : (inF ++ (entries.map Prod.fst).filter (fun n => decide (n ∉ inF))).Nodup :=
    List.nodup_append.mpr ⟨hndIn, hndRec.filter _, hdisj⟩
  rw [extract_nonsource_eq entries inF lbf hne hnd]
  simp [List.map_map, Function.comp_def]

/-- C3 witness: an input field order of `a, b` and a guest record reporting
`x, a` reconstruct in the order `a, b, x`. -/
theorem extract_field_order_witness :
    (extract_tuple_from_r
        (.namedList [( "x", RValue.intVec 1 []), ( "a", RValue.intVec 2 [])])
        false [ "a", "b"] []).map (fun r => r.map Prod.fst)
      = some [ "a", "b", "x"] :=
  extract_field_order [( "x", RValue.intVec 1 []), ( "a", RValue.intVec 2 [])]
    [ "a", "b"] [] (by decide) (by decide) (by decide)

/-- C4: every reconstructed field value is the rebinding step applied to
the converter's output; for a non-source call the converted value is
rebound to a large-object reference exactly when the field name is a
declared large-binary field and the value is a string beginning with the
scheme prefix, while for a source call every scheme-prefixed string value
is rebound regardless of field name. -/
theorem extract_rebind_iff :
    (∀ (entries : List (String × RValue)) (inF lbf : List String)
        (r : List (String × PyValue)) (k : String) (v : PyValue),
        extract_tuple_from_r (.namedList entries) false inF lbf = some r →
        (k, v) ∈ r →
        v = rebindNonSource lbf k (convert_r_to_py (rx2 entries k))) ∧
    (∀ (lbf : List String) (k s : String),
        rebindNonSource lbf k (.pyStr s)
          = if k ∈ lbf ∧ startsWithS3 s = true then .pyLB s else .pyStr s) ∧
    (∀ (lbf : List String) (k : String) (v : PyValue),
        (∀ s, v ≠ .pyStr s) → rebindNonSource lbf k v = v) ∧
    (∀ (entries : List (String × RValue)) (inF lbf : List String)
        (r : List (String × PyValue)) (k : String) (v : PyValue),
        extract_tuple_from_r (.namedList entries) true inF lbf = some r →
        (k, v) ∈ r →
        v = autoRebind (convert_r_to_py (rx2 entries k))) ∧
    (∀ s : String, autoRebind (.pyStr s)
        = if startsWithS3 s = true then .pyLB s else .pyStr s) ∧
    (∀ v : PyValue, (∀ s, v ≠ .pyStr s) → autoRebind v = v) := by
  refine ⟨?_, ?_, ?_, ?_, ?_, ?_⟩
  · intro entries inF lbf r k v hsome hmem
    exact extract_mem_val_nonsource hsome hmem
  · intro lbf k s
    by_cases h1 : k ∈ lbf <;> by_cases h2 : startsWithS3 s = true <;>
      simp [rebindNonSource, h1, h2]
  · intro lbf k v hv
    cases v <;> first | rfl | exact absurd rfl (hv _)
  · intro entries inF lbf r k v hsome hmem
    exact extract_mem_val_source hsome hmem
  · intro s
    by_cases h2 : startsWithS3 s = true <;> simp [autoRebind, h2]
  · intro v hv
    cases v <;> first | rfl | exact absurd rfl (hv _)

/-- C4 witness: with declared large-binary field `a`, the scheme-prefixed
string reconstructed for `a` is rebound while the one for `b` is not. -/
theorem extract_rebind_iff_witness :
    PyValue.pyLB "s3://x" = rebindNonSource [ "a"] "a"
        (convert_r_to_py (rx2 [( "a", RValue.strVec "s3://x" []),
          ( "b", RValue.strVec "s3://y" [])] "a")) ∧
    PyValue.pyStr "s3://y" = rebindNonSource [ "a"] "b"
        (convert_r_to_py (rx2 [( "a", RValue.strVec "s3://x" []),
          ( "b", RValue.strVec "s3://y" [])] "b")) :=
  ⟨extract_rebind_iff.1 [( "a", RValue.strVec "s3://x" []),
      ( "b", RValue.strVec "s3://y" [])] [ "a", "b"] [ "a"]
      [( "a", PyValue.pyLB "s3://x"), ( "b", PyValue.pyStr "s3://y")]
      "a" (.pyLB "s3://x") (by decide) (by decide),
   extract_rebind_iff.1 [( "a", RValue.strVec "s3://x" []),
      ( "b", RValue.strVec "s3://y" [])] [ "a", "b"] [ "a"]
      [( "a", PyValue.pyLB "s3://x"), ( "b", PyValue.pyStr "s3://y")]
      "b" (.pyStr "s3://y") (by decide) (by decide)⟩

/-- C10: for a non-source call that does not signal end-of-stream, every
name of the input field order appears in the reconstructed row; an input
field omitted by the guest record is still looked up (yielding R `NULL`),
and that null lookup result passes through the value converter unchanged
into the row instead of the field being dropped or an error being
raised. -/
theorem extract_preserves_input_fields
    (entries : List (String × RValue)) (inF lbf : List String)
    (r : List (String × PyValue)) (k : String)
    (hsome : extract_tuple_from_r (.namedList entries) false inF lbf = some r)
    (hk : k ∈ inF) :
    (k, rebindNonSource lbf k (convert_r_to_py (rx2 entries k))) ∈ r ∧
    (¬ k ∈ entries.map Prod.fst →
      rx2 entries k = .rNull ∧ (k, PyValue.pyRObj .rNull) ∈ r) := by
  refine ⟨extract_mem_key_nonsource hsome hk, ?_⟩
  intro hnot
  have hrx : rx2 entries k = .rNull := by
    unfold rx2
    rw [lookup_eq_none_of_not_mem hnot]
    rfl
  refine ⟨hrx, ?_⟩
  have hmem := extract_mem_key_nonsource hsome hk
  rw [hrx] at hmem
  exact hmem

/-- C10 witness: input field `a` is missing from the guest record yet
appears in the reconstructed row bound to the passed-through R `NULL`. -/
theorem extract_preserves_input_fields_witness :
    ( "a", PyValue.pyRObj RValue.rNull)
      ∈ [( "a", PyValue.pyRObj RValue.rNull), ( "b", PyValue.pyInt 1)] :=
  ((extract_preserves_input_fields [( "b", RValue.intVec 1 [])] [ "a", "b"] []
      [( "a", PyValue.pyRObj RValue.rNull), ( "b", PyValue.pyInt 1)] "a"
      (by decide) (by decide)).2 (by decide)).2

/-- C5 (amended): the value converter maps a boolean, integer or character
vector to the native scalar of its first element regardless of vector
length, a floating-point vector to the native float of its first element
except a date-time-tagged vector, which yields its first element as a
native timestamp; a large-object reference passes through unchanged, and
any unrecognized value (for example R `NULL` or an opaque embedded Python
object) passes through unchanged without raising an error. -/
theorem convert_r_to_py_spec :
    (∀ (u : String), convert_r_to_py (.rLB u) = .pyLB u) ∧
    (∀ (b : Bool) (t : List Bool), convert_r_to_py (.boolVec b t) = .pyBool b) ∧
    (∀ (i : Int) (t : List Int), convert_r_to_py (.intVec i t) = .pyInt i) ∧
    (∀ (x : Int) (t : List Int), convert_r_to_py (.floatVec false x t) = .pyFloat x) ∧
    (∀ (x : Int) (t : List Int), convert_r_to_py (.floatVec true x t) = .pyDatetime x) ∧
    (∀ (s : String) (t : List String), convert_r_to_py (.strVec s t) = .pyStr s) ∧
    convert_r_to_py .rNull = .pyRObj .rNull ∧
    (∀ (p : PklObj), convert_r_to_py (.rPyObj p) = .pyRObj (.rPyObj p)) :=
  ⟨fun _ => rfl, fun _ _ => rfl, fun _ _ => rfl, fun _ _ => rfl, fun _ _ => rfl,
   fun _ _ => rfl, rfl, fun _ => rfl⟩

/-- C5 counterexample: a boolean vector of length two is not passed through
unchanged as the claim requires for shapes other than length-one vectors:
the converter truncates it to the native scalar of its first element. -/
theorem convert_r_to_py_length_two_counterexample :
    convert_r_to_py (.boolVec true [false]) = .pyBool true ∧
    convert_r_to_py (.boolVec true [false]) ≠ .pyRObj (.boolVec true [false]) :=
  ⟨rfl, by decide⟩

/-- C6 (amended): a string column whose first value is a scheme-prefixed
string is classified as a large-object column exactly when a positive
number and at least 80 percent of its non-null values are scheme-prefixed
strings (so a first-prefixed column with exactly 80 percent of its 10
non-null values prefixed is classified); a column whose first cell is not
a `largebinary` object and whose scheme-prefixed fraction of non-null
values is below 80 percent (for example 79 of 100) is not classified. -/
theorem detect_large_binary_column_amended :
    (∀ (s : String) (rest : List Cell),
        startsWithS3 s = true →
        0 < ((nonNullCells (Cell.cstr s :: rest)).filter cellIsS3Str).length →
        4 * (nonNullCells (Cell.cstr s :: rest)).length
          ≤ 5 * ((nonNullCells (Cell.cstr s :: rest)).filter cellIsS3Str).length →
        detect_large_binary_column (Cell.cstr s :: rest) = true) ∧
    (∀ (col : List Cell),
        headIsLB col = false →
        5 * ((nonNullCells col).filter cellIsS3Str).length
          < 4 * (nonNullCells col).length →
        detect_large_binary_column col = false) := by
  constructor
  · intro s rest hpre hcnt hratio
    have hnn : 0 < (nonNullCells (Cell.cstr s :: rest)).length :=
      lt_of_lt_of_le hcnt (List.length_filter_le _ _)
    simp only [detect_large_binary_column, hpre, if_true, hnn, if_pos]
    exact decide_eq_true ⟨hcnt, hratio⟩
  · intro col hhead hlt
    match col with
    | [] => rfl
    | first :: rest =>
      match first with
      | .clb u => simp [headIsLB] at hhead
      | .cnull => rfl
      | .cother p => rfl
      | .cstr s =>
        by_cases hpre : startsWithS3 s = true
        · simp only [detect_large_binary_column, hpre, if_true]
          by_cases hnn : 0 < (nonNullCells (Cell.cstr s :: rest)).length
          · rw [if_pos hnn]
            apply decide_eq_false
            rintro ⟨-, hge⟩
            omega
          · rw [if_neg hnn]
        · simp only [detect_large_binary_column, hpre]
          rw [if_neg (by simp [hpre])]

/-- C6 amended witness: the 80-percent ten-value column whose first value
is scheme-prefixed is classified; the 79-percent hundred-value string
column is not. -/
theorem detect_large_binary_column_amended_witness :
    detect_large_binary_column
        (Cell.cstr "s3://bkt/k"
          :: (List.replicate 7 (Cell.cstr "s3://bkt/k")
              ++ [Cell.cstr "plain-a", Cell.cstr "plain-b"])) = true ∧
    detect_large_binary_column colSeventyNine = false :=
  ⟨detect_large_binary_column_amended.1 "s3://bkt/k"
      (List.replicate 7 (Cell.cstr "s3://bkt/k")
        ++ [Cell.cstr "plain-a", Cell.cstr "plain-b"])
      (by decide) (by decide) (by decide),
   detect_large_binary_column_amended.2 colSeventyNine (by decide) (by decide)⟩

/-- C6 counterexample: a string column with ten non-null values of which
exactly eight (80 percent) are scheme-prefixed is nevertheless not
classified, because the code samples `iloc[0]` first and the first value
of this column is not a scheme-prefixed string. -/
theorem detect_eighty_percent_counterexample :
    (nonNullCells colEighty).length = 10 ∧
    ((nonNullCells colEighty).filter cellIsS3Str).length = 8 ∧
    detect_large_binary_column colEighty = false := by decide

theorem hexChar_mem_hexDigits : ∀ d : Fin 16, hexChar d ∈ hexDigits := by decide

/-- C7 (amended): every minted URI has the exact form
`s3://` + default bucket + `/objects/` + decimal millisecond timestamp +
`/` + 32-character segment; the segment consists of lowercase-hex
characters only and is determined injectively by the sampler draws (so
distinct segments occur exactly when the sampler draws differ, and
uniqueness across calls is only as good as the sampler). -/
theorem mint_uri_shape (ts : Nat) (draws : List (Fin 16))
    (h : draws.length = 32) :
    mint ts draws
      = "s3://" ++ DEFAULT_BUCKET ++ "/objects/" ++ toString ts ++ "/"
          ++ generate_uuid draws ∧
    (generate_uuid draws).length = 32 ∧
    (∀ c ∈ (generate_uuid draws).toList, c ∈ hexDigits) ∧
    (∀ draws2 : List (Fin 16),
        (generate_uuid draws = generate_uuid draws2 ↔ draws = draws2)) := by
  refine ⟨rfl, ?_, ?_, ?_⟩
  · simp [generate_uuid, String.length, h]
  · intro c hc
    simp only [generate_uuid, String.toList] at hc
    obtain ⟨d, -, rfl⟩ := List.mem_map.mp hc
    exact hexChar_mem_hexDigits d
  · intro draws2
    constructor
    · intro heq
      have hinj : Function.Injective hexChar := by decide
      have hlists := congrArg String.data heq
      simp only [generate_uuid] at hlists
      exact List.map_injective_iff.mpr hinj hlists
    · intro heq
      rw [heq]

/-- C7 amended witness: a 32-draw sample mints a well-formed URI with a
32-character segment. -/
theorem mint_uri_shape_witness :
    (List.replicate 32 (5 : Fin 16)).length = 32 ∧
    (generate_uuid (List.replicate 32 (5 : Fin 16))).length = 32 :=
  ⟨by decide, (mint_uri_shape 1700000000000 (List.replicate 32 5) (by decide)).2.1⟩

/-- C7 counterexample: the sampler draws with replacement, so two distinct
calls among 10,000 sequential mints can draw the same 32 characters and
then return URIs with the identical 32-character random segment; shown
here for calls number 5 and 7 of such an execution. -/
theorem mint_collision_counterexample :
    (5 : Nat) ≠ 7 ∧ (5 : Nat) < 10000 ∧ (7 : Nat) < 10000 ∧
    randomSegment (mint 5 (List.replicate 32 0))
      = randomSegment (mint 7 (List.replicate 32 0)) ∧
    mint 5 (List.replicate 32 0) ≠ mint 7 (List.replicate 32 0) := by
  refine ⟨by decide, by decide, by decide, by decide, by decide⟩

/-- C8: `bind(uri)` (the non-NULL branch of the R `largebinary` function)
fails with an invalid-reference error whenever the argument is not a
single string beginning with the scheme prefix, and for every
scheme-prefixed single string it succeeds and returns exactly the input
string. -/
theorem bindLB_validation (arg : RBindArg) :
    (isSingleS3 arg = false →
      ∃ msg, bindLB arg = .error (.invalidReference msg)) ∧
    (∀ u, arg = .charVec [u] → startsWithS3 u = true → bindLB arg = .ok u) := by
  constructor
  · intro hno
    match arg with
    | .nonChar p => exact ⟨ "uri must be a single character string", rfl⟩
    | .charVec [] => exact ⟨ "uri must be a single character string", rfl⟩
    | .charVec [u] =>
      have hpre : startsWithS3 u = false := by simpa [isSingleS3] using hno
      refine ⟨ "largebinary URI must start with s3://, got: " ++ u, ?_⟩
      simp [bindLB, hpre]
    | .charVec (u :: w :: rest) =>
      exact ⟨ "uri must be a single character string", rfl⟩
  · intro u harg hpre
    rw [harg]
    simp [bindLB, hpre]

/-- C8 witness: `bind("not-a-uri")` fails with an invalid-reference error
and `bind("s3://bucket/key")` returns exactly `s3://bucket/key`. -/
theorem bindLB_validation_witness :
    (∃ msg, bindLB (.charVec [ "not-a-uri"]) = .error (.invalidReference msg)) ∧
    bindLB (.charVec [ "s3://bucket/key"]) = .ok "s3://bucket/key" :=
  ⟨(bindLB_validation (.charVec [ "not-a-uri"])).1 (by decide),
   (bindLB_validation (.charVec [ "s3://bucket/key"])).2 "s3://bucket/key" rfl
     (by decide)⟩

/-- C9: after `close()` on an open read stream every subsequent `read` and
`readline` fails with the closed-stream error and the staging file is
released; after `close()` on an open write stream every subsequent `write`
fails with the closed-stream error, the staging file is removed on both
upload outcomes, a failed upload surfaces the upload error after that
cleanup, and a successful upload stores exactly the staged bytes. -/
theorem stream_close_semantics (sIn : RInputStream) (sOut : ROutputStream)
    (uploadOk : Bool) (n : Int) (data : List Nat)
    (hIn : sIn.closed = false) (hOut : sOut.closed = false) :
    ((inputRead n (inputClose sIn)).2 = .error .streamClosed ∧
     (inputReadline (inputClose sIn)).2 = .error .streamClosed ∧
     (inputClose sIn).tempFileExists = false ∧
     (inputClose sIn).closed = true) ∧
    ((outputWrite data (outputClose uploadOk sOut).1).2 = .error .streamClosed ∧
     (outputClose uploadOk sOut).1.tempFileExists = false ∧
     (outputClose uploadOk sOut).1.closed = true ∧
     (uploadOk = false → (outputClose uploadOk sOut).2.1 = .error .uploadFailed) ∧
     (uploadOk = true → (outputClose uploadOk sOut).2.1 = .ok () ∧
        (outputClose uploadOk sOut).2.2 = some sOut.staged)) := by
  constructor
  · have hcl : inputClose sIn
        = { sIn with closed := true, tempFileExists := false } := by
      simp [inputClose, hIn]
    refine ⟨?_, ?_, ?_, ?_⟩ <;> simp [hcl, inputRead, inputReadline]
  · have hcl : outputClose uploadOk sOut
        = ({ sOut with closed := true, tempFileExists := false },
           if uploadOk then Except.ok () else Except.error .uploadFailed,
           if uploadOk then some sOut.staged else none) := by
      cases uploadOk <;> simp [outputClose, hOut]
    refine ⟨?_, ?_, ?_, ?_, ?_⟩ <;>
      cases uploadOk <;> simp [hcl, outputWrite]

/-- C9 witness: closing a concrete open write stream with a failing upload
still removes the staging file. -/
theorem stream_close_semantics_witness :
    (outputClose false ⟨false, true, [3, 4]⟩).1.tempFileExists = false :=
  (stream_close_semantics ⟨false, true, [1, 2], 0⟩ ⟨false, true, [3, 4]⟩
      false (-1) [9] rfl rfl).2.2.1

/-! ### Round trip of `process_tuple` marshalling and `extract_tuple_from_r` -/

theorem lookup_append_left {α : Type} {l₁ l₂ : List (String × α)} {k : String}
    {v : α} (h : l₁.lookup k = some v) : (l₁ ++ l₂).lookup k = some v := by
  induction l₁ with
  | nil => cases h
  | cons e rest ih =>
    obtain ⟨e1, e2⟩ := e
    simp only [List.cons_append, List.lookup_cons] at h ⊢
    by_cases hk : (k == e1) = true
    · rw [hk] at h ⊢
      exact h
    · rw [Bool.not_eq_true] at hk
      rw [hk] at h ⊢
      exact ih h

theorem map_fst_graph {α : Type} (f : String → α) (l : List String) :
    (l.map (fun x => (x, f x))).map Prod.fst = l := by
  simp [List.map_map, Function.comp_def]

theorem field_name_unique {fields : List (String × FType × PyValue)}
    (hnd : (fields.map Prod.fst).Nodup) {a b : String × FType × PyValue}
    (ha : a ∈ fields) (hb : b ∈ fields) (h : a.1 = b.1) : a = b :=
  List.inj_on_of_nodup_map hnd ha hb h

theorem mem_group_names {fields : List (String × FType × PyValue)}
    {t : String × FType × PyValue} (ht : t ∈ fields)
    (q : String × FType × PyValue → Bool) (hq : q t = true) :
    t.1 ∈ (fields.filter q).map Prod.fst :=
  List.mem_map.mpr ⟨t, List.mem_filter.mpr ⟨ht, hq⟩, rfl⟩

theorem not_mem_group_names {fields : List (String × FType × PyValue)}
    (hnd : (fields.map Prod.fst).Nodup) {t : String × FType × PyValue}
    (ht : t ∈ fields) (q : String × FType × PyValue → Bool) (hq : q t = false) :
    ¬ t.1 ∈ (fields.filter q).map Prod.fst := by
  intro hmem
  obtain ⟨t2, ht2, heq⟩ := List.mem_map.mp hmem
  have ht2f := List.mem_filter.mp ht2
  have ht2t : t2 = t := field_name_unique hnd ht2f.1 ht heq
  rw [ht2t, hq] at ht2f
  exact absurd ht2f.2 (by simp)

theorem plainFieldNames_schemaOf (fields : List (String × FType × PyValue)) :
    plainFieldNames (schemaOf fields)
      = (fields.filter (fun t => !(isLB t.2.1) && !(isBin t.2.1))).map Prod.fst := by
  unfold plainFieldNames schemaOf
  rw [List.filter_map]
  simp [List.map_map, Function.comp_def]

theorem binFieldNames_schemaOf (fields : List (String × FType × PyValue)) :
    binFieldNames (schemaOf fields)
      = (fields.filter (fun t => !(isLB t.2.1) && isBin t.2.1)).map Prod.fst := by
  unfold binFieldNames schemaOf
  rw [List.filter_map]
  simp [List.map_map, Function.comp_def]

theorem lbFieldNames_schemaOf (fields : List (String × FType × PyValue)) :
    lbFieldNames (schemaOf fields)
      = (fields.filter (fun t => isLB t.2.1)).map Prod.fst := by
  unfold lbFieldNames schemaOf
  rw [List.filter_map]
  simp [List.map_map, Function.comp_def]

theorem rowOf_map_fst (fields : List (String × FType × PyValue)) :
    (rowOf fields).map Prod.fst = fields.map Prod.fst := by
  simp [rowOf, List.map_map, Function.comp_def]

theorem rowGet_eq {fields : List (String × FType × PyValue)}
    (hnd : (fields.map Prod.fst).Nodup) {t : String × FType × PyValue}
    (ht : t ∈ fields) : rowGet (rowOf fields) t.1 = t.2.2 := by
  unfold rowGet
  have h1 : (t.1, t.2.2) ∈ rowOf fields := List.mem_map.mpr ⟨t, ht, rfl⟩
  have h2 : ((rowOf fields).map Prod.fst).Nodup := by
    rw [rowOf_map_fst]
    exact hnd
  rw [lookup_of_mem_nodup h2 h1]
  rfl

theorem length_three_filters (fields : List (String × FType × PyValue)) :
    (fields.filter (fun t => !(isLB t.2.1) && !(isBin t.2.1))).length
      + (fields.filter (fun t => !(isLB t.2.1) && isBin t.2.1)).length
      + (fields.filter (fun t => isLB t.2.1)).length
      = fields.length := by
  induction fields with
  | nil => rfl
  | cons t rest ih =>
    cases hl : isLB t.2.1 <;> cases hb : isBin t.2.1 <;>
      simp [List.filter_cons, hl, hb] <;> omega

theorem recordEntries_toGuest (schema : List (String × FType))
    (row : List (String × PyValue)) :
    recordEntries (toGuestRecord schema row)
      = (plainFieldNames schema).map (fun k => (k, pyToREmbed (rowGet row k)))
        ++ (binFieldNames schema).map (fun k => (k, binEntryToR (rowGet row k)))
        ++ (lbFieldNames schema).map (fun k => (k, lbEntryToR (rowGet row k))) := rfl

theorem rx2_toGuest_plain {fields : List (String × FType × PyValue)}
    (hnd : (fields.map Prod.fst).Nodup) {t : String × FType × PyValue}
    (ht : t ∈ fields) (hq : (!(isLB t.2.1) && !(isBin t.2.1)) = true) :
    rx2 (recordEntries (toGuestRecord (schemaOf fields) (rowOf fields))) t.1
      = pyToREmbed t.2.2 := by
  rw [recordEntries_toGuest]
  have hmem : t.1 ∈ plainFieldNames (schemaOf fields) := by
    rw [plainFieldNames_schemaOf]
    exact mem_group_names ht _ hq
  have hl : ((plainFieldNames (schemaOf fields)).map
      (fun k => (k, pyToREmbed (rowGet (rowOf fields) k)))).lookup t.1
      = some (pyToREmbed (rowGet (rowOf fields) t.1)) := List.lookup_graph _ hmem
  unfold rx2
  rw [lookup_append_left (lookup_append_left hl), rowGet_eq hnd ht]
  rfl

theorem rx2_toGuest_bin {fields : List (String × FType × PyValue)}
    (hnd : (fields.map Prod.fst).Nodup) {t : String × FType × PyValue}
    (ht : t ∈ fields) (hq : (!(isLB t.2.1) && isBin t.2.1) = true) :
    rx2 (recordEntries (toGuestRecord (schemaOf fields) (rowOf fields))) t.1
      = binEntryToR t.2.2 := by
  rw [recordEntries_toGuest]
  have hboth := hq
  rw [Bool.and_eq_true] at hboth
  have hql : isLB t.2.1 = false := by simpa using hboth.1
  have hqb : isBin t.2.1 = true := hboth.2
  have hnp : ¬ t.1 ∈ ((plainFieldNames (schemaOf fields)).map
      (fun k => (k, pyToREmbed (rowGet (rowOf fields) k)))).map Prod.fst := by
    rw [map_fst_graph, plainFieldNames_schemaOf]
    exact not_mem_group_names hnd ht _ (by simp [hql, hqb])
  have hmem : t.1 ∈ binFieldNames (schemaOf fields) := by
    rw [binFieldNames_schemaOf]
    exact mem_group_names ht _ (by simp [hql, hqb])
  have hl : ((binFieldNames (schemaOf fields)).map
      (fun k => (k, binEntryToR (rowGet (rowOf fields) k)))).lookup t.1
      = some (binEntryToR (rowGet (rowOf fields) t.1)) := List.lookup_graph _ hmem
  unfold rx2
  rw [List.append_assoc, lookup_append_right hnp, lookup_append_left hl,
    rowGet_eq hnd ht]
  rfl

theorem rx2_toGuest_lb {fields : List (String × FType × PyValue)}
    (hnd : (fields.map Prod.fst).Nodup) {t : String × FType × PyValue}
    (ht : t ∈ fields) (hq : isLB t.2.1 = true) :
    rx2 (recordEntries (toGuestRecord (schemaOf fields) (rowOf fields))) t.1
      = lbEntryToR t.2.2 := by
  rw [recordEntries_toGuest]
  have hnp : ¬ t.1 ∈ ((plainFieldNames (schemaOf fields)).map
      (fun k => (k, pyToREmbed (rowGet (rowOf fields) k)))).map Prod.fst := by
    rw [map_fst_graph, plainFieldNames_schemaOf]
    exact not_mem_group_names hnd ht _ (by simp [hq])
  have hnb : ¬ t.1 ∈ ((binFieldNames (schemaOf fields)).map
      (fun k => (k, binEntryToR (rowGet (rowOf fields) k)))).map Prod.fst := by
    rw [map_fst_graph, binFieldNames_schemaOf]
    exact not_mem_group_names hnd ht _ (by simp [hq])
  have hmem : t.1 ∈ lbFieldNames (schemaOf fields) := by
    rw [lbFieldNames_schemaOf]
    exact mem_group_names ht _ hq
  have hl : ((lbFieldNames (schemaOf fields)).map
      (fun k => (k, lbEntryToR (rowGet (rowOf fields) k)))).lookup t.1
      = some (lbEntryToR (rowGet (rowOf fields) t.1)) := List.lookup_graph _ hmem
  unfold rx2
  rw [List.append_assoc, lookup_append_right hnp, lookup_append_right hnb, hl,
    rowGet_eq hnd ht]
  rfl

theorem toGuest_entries_length (fields : List (String × FType × PyValue)) :
    (recordEntries (toGuestRecord (schemaOf fields) (rowOf fields))).length
      = fields.length := by
  rw [recordEntries_toGuest]
  simp only [List.length_append, List.length_map]
  rw [plainFieldNames_schemaOf, binFieldNames_schemaOf, lbFieldNames_schemaOf]
  simp only [List.length_map]
  exact length_three_filters fields

theorem toGuest_names_subset (fields : List (String × FType × PyValue)) :
    ∀ n ∈ (recordEntries (toGuestRecord (schemaOf fields) (rowOf fields))).map
        Prod.fst, n ∈ fields.map Prod.fst := by
  intro n hn
  rw [recordEntries_toGuest] at hn
  simp only [List.map_append, List.mem_append, map_fst_graph] at hn
  rw [plainFieldNames_schemaOf, binFieldNames_schemaOf, lbFieldNames_schemaOf] at hn
  rcases hn with (hn | hn) | hn <;>
  · obtain ⟨t2, ht2, heq⟩ := List.mem_map.mp hn
    exact List.mem_map.mpr ⟨t2, (List.mem_filter.mp ht2).1, heq⟩

theorem roundtrip_field {fields : List (String × FType × PyValue)}
    (hnd : (fields.map Prod.fst).Nodup) {t : String × FType × PyValue}
    (ht : t ∈ fields) (hwt : wellTypedVal t.2.1 t.2.2 = true) :
    engineNormalizeVal
        (rebindNonSource (lbFieldNames (schemaOf fields)) t.1
          (convert_r_to_py
            (rx2 (recordEntries (toGuestRecord (schemaOf fields) (rowOf fields)))
              t.1)))
      = t.2.2 := by
  obtain ⟨k, ty, v⟩ := t
  cases ty with
  | tInt =>
    cases v <;> simp [wellTypedVal] at hwt
    rw [rx2_toGuest_plain hnd ht (by rfl)]
    rfl
  | tFloat =>
    cases v <;> simp [wellTypedVal] at hwt
    rw [rx2_toGuest_plain hnd ht (by rfl)]
    rfl
  | tBool =>
    cases v <;> simp [wellTypedVal] at hwt
    rw [rx2_toGuest_plain hnd ht (by rfl)]
    rfl
  | tTimestamp =>
    cases v <;> simp [wellTypedVal] at hwt
    rw [rx2_toGuest_plain hnd ht (by rfl)]
    rfl
  | tStr =>
    cases v <;> simp [wellTypedVal] at hwt
    rename_i s
    rw [rx2_toGuest_plain hnd ht (by rfl)]
    have hnl : ¬ (k, FType.tStr, PyValue.pyStr s).1 ∈ lbFieldNames (schemaOf fields) := by
      rw [lbFieldNames_schemaOf]
      exact not_mem_group_names hnd ht _ (by rfl)
    simp [pyToREmbed, convert_r_to_py, rebindNonSource, engineNormalizeVal, hnl]
  | tBinary =>
    cases v <;> simp [wellTypedVal] at hwt
    · rw [rx2_toGuest_bin hnd ht (by rfl)]
      rfl
    · rw [rx2_toGuest_bin hnd ht (by rfl)]
      rfl
  | tLargeBinary =>
    cases v <;> simp [wellTypedVal] at hwt
    rename_i u
    rw [rx2_toGuest_lb hnd ht (by rfl)]
    have hinl : (k, FType.tLargeBinary, PyValue.pyLB u).1 ∈ lbFieldNames (schemaOf fields) := by
      rw [lbFieldNames_schemaOf]
      exact mem_group_names ht _ (by rfl)
    simp [lbEntryToR, pyToREmbed, convert_r_to_py, rebindNonSource,
      engineNormalizeVal, hinl, hwt]

/-- C1: marshalling a well-formed row to the guest representation
(`process_tuple`) and reconstructing it (`extract_tuple_from_r` with the
schema field names as input field order and the schema's large-binary
field names) returns, after the engine re-serializes raw binary payloads,
a row equal to the original, for rows mixing plain, binary and
large-object fields in any combination.  Well-formed means: at least one
field, distinct field names, and each value matching its field category
(large-object fields hold bound references, whose URIs always carry the
scheme prefix). -/
theorem process_tuple_round_trip (fields : List (String × FType × PyValue))
    (hne : fields ≠ []) (hnd : (fields.map Prod.fst).Nodup)
    (hty : ∀ t ∈ fields, wellTypedVal t.2.1 t.2.2 = true) :
    (extract_tuple_from_r (toGuestRecord (schemaOf fields) (rowOf fields)) false
        (fields.map Prod.fst) (lbFieldNames (schemaOf fields))).map
      engineNormalizeRow
      = some (rowOf fields) := by
  have hrec : toGuestRecord (schemaOf fields) (rowOf fields)
      = RGenValue.namedList
          (recordEntries (toGuestRecord (schemaOf fields) (rowOf fields))) := rfl
  have hesne : recordEntries (toGuestRecord (schemaOf fields) (rowOf fields)) ≠ [] := by
    intro h0
    have hlen := toGuest_entries_length fields
    rw [h0] at hlen
    exact hne (List.length_eq_zero.mp (by simpa using hlen.symm))
  have hfil : ((recordEntries (toGuestRecord (schemaOf fields) (rowOf fields))).map
        Prod.fst).filter (fun n => decide (¬ n ∈ fields.map Prod.fst)) = [] := by
    rw [List.filter_eq_nil_iff]
    intro a ha
    simp only [decide_eq_true_eq, Decidable.not_not]
    exact toGuest_names_subset fields a ha
  have hnd2 : ((fields.map Prod.fst)
      ++ ((recordEntries (toGuestRecord (schemaOf fields) (rowOf fields))).map
          Prod.fst).filter (fun n => decide (¬ n ∈ fields.map Prod.fst))).Nodup := by
    rw [hfil]
    simpa using hnd
  have hmaster := extract_nonsource_eq
      (recordEntries (toGuestRecord (schemaOf fields) (rowOf fields)))
      (fields.map Prod.fst) (lbFieldNames (schemaOf fields)) hesne hnd2
  rw [hrec, hmaster, hfil, List.append_nil]
  simp only [Option.map_some']
  apply congrArg some
  unfold engineNormalizeRow rowOf
  rw [List.map_map, List.map_map]
  apply List.map_congr_left
  intro t ht
  simp only [Function.comp_def]
  exact congrArg (Prod.mk t.1) (roundtrip_field hnd ht (hty t ht))

/-- C1 witness: a three-field row holding a plain integer, a pickled binary
payload and a bound large-object reference round-trips to itself. -/
theorem process_tuple_round_trip_witness :
    (extract_tuple_from_r
        (toGuestRecord
          (schemaOf [( "a", FType.tInt, PyValue.pyInt 1),
            ( "b", FType.tBinary, PyValue.pyBytes ⟨7⟩),
            ( "c", FType.tLargeBinary, PyValue.pyLB "s3://bkt/objects/1/x")])
          (rowOf [( "a", FType.tInt, PyValue.pyInt 1),
            ( "b", FType.tBinary, PyValue.pyBytes ⟨7⟩),
            ( "c", FType.tLargeBinary, PyValue.pyLB "s3://bkt/objects/1/x")]))
        false
        ([( "a", FType.tInt, PyValue.pyInt 1),
          ( "b", FType.tBinary, PyValue.pyBytes ⟨7⟩),
          ( "c", FType.tLargeBinary, PyValue.pyLB "s3://bkt/objects/1/x")].map
            Prod.fst)
        (lbFieldNames (schemaOf [( "a", FType.tInt, PyValue.pyInt 1),
          ( "b", FType.tBinary, PyValue.pyBytes ⟨7⟩),
          ( "c", FType.tLargeBinary, PyValue.pyLB "s3://bkt/objects/1/x")]))).map
      engineNormalizeRow
      = some (rowOf [( "a", FType.tInt, PyValue.pyInt 1),
          ( "b", FType.tBinary, PyValue.pyBytes ⟨7⟩),
          ( "c", FType.tLargeBinary, PyValue.pyLB "s3://bkt/objects/1/x")]) :=
  process_tuple_round_trip
    [( "a", FType.tInt, PyValue.pyInt 1),
     ( "b", FType.tBinary, PyValue.pyBytes ⟨7⟩),
     ( "c", FType.tLargeBinary, PyValue.pyLB "s3://bkt/objects/1/x")]
    (by decide) (by decide) (by decide)
